import Mathlib

/-!
# Shallow embedding of the BoundsCheck LLVM pass

This file embeds `src/pass/BoundsCheck/BoundsCheck.cpp` — an LLVM
`FunctionPass` that statically detects out-of-bounds constant indices into
fixed-size arrays — and proves the claims of the specification about it.

Modelling conventions:
* LLVM IR entities (`Type`, `Value`/operands, `GetElementPtrInst`,
  `BasicBlock`, `Function`, `Module`) become plain Lean inductives and
  structures carrying exactly the data the pass inspects.
* The C++ locals `arrayLength` and `desiredIndex` have type `int`
  (deduced from `auto x = -1`), while `getArrayNumElements()` and
  `getZExtValue()` return `uint64_t`; the implicit narrowing conversion is
  modelled by `toInt32` (value mod 2^32, reinterpreted as signed).
* `report_fatal_error` never returns, so the per-function analysis is a
  function into `Except RunError _`; dereferencing a null `dyn_cast` result
  is the fault case `RunError.fault`.
-/

namespace BoundsCheck

/-- An `llvm::ConstantInt`: a constant integer of a given bit width.
`value` is the zero-extended (unsigned) value of the constant,
so `value < 2 ^ bitWidth` for well-formed IR. -/
structure ConstantInt where
  bitWidth : Nat
  value : Nat

/-- Model of `llvm::ConstantInt::getZExtValue()`: the value zero-extended to
`uint64_t`.  (For constants wider than 64 bits LLVM keeps the low 64 bits
in release builds; `% 2 ^ 64` models that.) -/
def ConstantInt.getZExtValue (c : ConstantInt) : Nat :=
  c.value % 2 ^ 64

/-- The fragment of `llvm::Type` the pass inspects: integer, pointer,
fixed-size array and struct types, plus a catch-all for every other
type kind. -/
inductive LLVMType where
  | integer (width : Nat)
  | pointer (pointee : LLVMType)
  | array (numElements : Nat) (element : LLVMType)
  | structType (fields : List LLVMType)
  | other (tag : Nat)

/-- An operand (`llvm::Value *`) of a GEP instruction: either an
`llvm::ConstantInt`, or any other value (an SSA register, a constant of
another kind, a pointer, ...). -/
inductive Operand where
  | constInt (c : ConstantInt)
  | value (tag : Nat)

/-- Model of `dyn_cast<ConstantInt>(v)`: succeeds exactly on constant-integer
operands, returns null (here `none`) otherwise. -/
def dynCastConstantInt : Operand → Option ConstantInt
  | .constInt c => some c
  | .value _ => none

/-- An `llvm::GetElementPtrInst`: operand 0 is the base pointer, the
remaining operands are the indices.  `pointerOperandType` is the static
type of operand 0 (`GEP->getPointerOperandType()`). -/
structure GetElementPtrInst where
  pointerOperand : Operand
  pointerOperandType : LLVMType
  indices : List Operand

/-- Model of `GEP->getNumIndices()`. -/
def GetElementPtrInst.getNumIndices (g : GetElementPtrInst) : Nat :=
  g.indices.length

/-- The operand list of the instruction: the base pointer followed by the
indices (LLVM operand numbering). -/
def GetElementPtrInst.operands (g : GetElementPtrInst) : List Operand :=
  g.pointerOperand :: g.indices

/-- Model of `GEP->getOperand(i)`.  Always called in range by the pass; the default
is irrelevant junk. -/
def GetElementPtrInst.getOperand (g : GetElementPtrInst) (i : Nat) : Operand :=
  g.operands.getD i (.value 0)

/-- Model of `GEP->hasAllConstantIndices()`: every index operand is an
`llvm::ConstantInt` (vacuously true when there are no indices). -/
def GetElementPtrInst.hasAllConstantIndices (g : GetElementPtrInst) : Bool :=
  g.indices.all fun op => (dynCastConstantInt op).isSome

/-- The C++ implicit conversion from a (64-bit unsigned) value to the
32-bit signed `int` of the locals `arrayLength` and `desiredIndex`:
reduce mod 2^32 and reinterpret the bit pattern as signed. -/
def toInt32 (n : Nat) : Int :=
  if n % 2 ^ 32 < 2 ^ 31 then ((n % 2 ^ 32 : Nat) : Int)
  else ((n % 2 ^ 32 : Nat) : Int) - 2 ^ 32

/-- Lines 62, 66–72 of `runOnFunction`: `arrayLength` starts at the
sentinel `-1`; if `dyn_cast<PointerType>(GEP->getPointerOperandType())`
succeeds and `dyn_cast<ArrayType>` of its element type succeeds,
`arrayLength` becomes the element count of the array (narrowed to `int`). -/
def recoverArrayLength (t : LLVMType) : Int :=
  match t with
  | .pointer elementType =>
    match elementType with
    | .array numElements _ => toInt32 numElements
    | _ => -1
  | _ => -1

/-- Undefined behaviour reached by the pass: dereferencing the null
result of a failed `dyn_cast`. -/
inductive Fault where
  | nullDereference

/-- Lines 63, 75–80 of `runOnFunction`: `desiredIndex` starts at the
sentinel `-1`; under `hasAllConstantIndices` the pass downcasts
`getOperand(getNumIndices())` to `ConstantInt` and reads its
zero-extended value (narrowed to `int`).  The downcast result is
dereferenced unchecked, so a failed downcast is a null dereference. -/
def recoverDesiredIndex (g : GetElementPtrInst) : Except Fault Int :=
  if g.hasAllConstantIndices then
    match dynCastConstantInt (g.getOperand g.getNumIndices) with
    | some constantInt => .ok (toInt32 constantInt.getZExtValue)
    | none => .error .nullDereference
  else .ok (-1)

/-- Model of `BoundsCheck::stringFormat` applied at its only call site (line 85):
`vsnprintf` substitutes the two `%d` holes of
`"Wrong assignment to index %d (zero-based) while array has length %d! Aborting..."`
with the decimal renderings of `desiredIndex` and `arrayLength`. -/
def stringFormat (desiredIndex arrayLength : Int) : String :=
  "Wrong assignment to index " ++ toString desiredIndex ++
    " (zero-based) while array has length " ++ toString arrayLength ++
    "! Aborting..."

/-- Outcome of lines 83–91: the optional fatal diagnostic, plus a trace
bit recording whether the numeric relation `desiredIndex >= arrayLength`
(line 84) was actually evaluated. -/
structure PolicyResult where
  diagnostic : Option String
  relationEvaluated : Bool

/-- Lines 83–91 of `runOnFunction`: the guard
`arrayLength >= 0 && desiredIndex >= 0` is tested first; only when it
holds is `desiredIndex >= arrayLength` evaluated, raising the fatal
diagnostic when it holds and doing nothing otherwise. -/
def decisionPolicy (arrayLength desiredIndex : Int) : PolicyResult :=
  if arrayLength ≥ 0 ∧ desiredIndex ≥ 0 then
    if desiredIndex ≥ arrayLength then
      { diagnostic := some (stringFormat desiredIndex arrayLength)
        relationEvaluated := true }
    else
      { diagnostic := none, relationEvaluated := true }
  else
    { diagnostic := none, relationEvaluated := false }

/-- Lines 62–91: the per-GEP analysis — recover both quantities, then
apply the decision policy.  `.ok none` is a silent pass, `.ok (some m)`
is a proven violation with message `m`, `.error` is the null-dereference
fault. -/
def analyzeGEP (g : GetElementPtrInst) : Except Fault (Option String) :=
  match recoverDesiredIndex g with
  | .error f => .error f
  | .ok desiredIndex =>
    .ok (decisionPolicy (recoverArrayLength g.pointerOperandType) desiredIndex).diagnostic

/-- An IR instruction, as far as the pass cares: a GEP or anything else. -/
inductive Instruction where
  | gep (g : GetElementPtrInst)
  | other (tag : Nat)

/-- Model of `dyn_cast<GetElementPtrInst>(&BI)` (line 53). -/
def dynCastGEP : Instruction → Option GetElementPtrInst
  | .gep g => some g
  | .other _ => none

/-- An `llvm::BasicBlock`: an ordered instruction sequence. -/
structure BasicBlock where
  instructions : List Instruction

/-- An `llvm::Function`: an ordered basic-block sequence, owned by the
module identified by `parent` (`F.getParent()`). -/
structure Function where
  parent : Nat
  blocks : List BasicBlock

/-- Lines 50–56: the Collector.  Walk the blocks in order and, within
each block, the instructions in order, appending every GEP to the
worklist (`push_back`). -/
def collectWorkList (F : Function) : List GetElementPtrInst :=
  F.blocks.foldl
    (fun workList FI =>
      FI.instructions.foldl
        (fun workList BI =>
          match dynCastGEP BI with
          | some g => workList ++ [g]
          | none => workList)
        workList)
    []

/-- How an invocation of the pass fails to return normally: the fatal
diagnostic of `report_fatal_error` (line 85), or undefined behaviour. -/
inductive RunError where
  | fatal (message : String)
  | fault (f : Fault)

/-- Lines 60–94: the Analyzer loop.  Each worklist entry is analyzed in
order; `report_fatal_error` does not return, so the first violation (or
fault) ends the whole run. -/
def processWorkList : List GetElementPtrInst → Except RunError Unit
  | [] => .ok ()
  | g :: rest =>
    match analyzeGEP g with
    | .error f => .error (.fault f)
    | .ok (some message) => .error (.fatal message)
    | .ok none => processWorkList rest

/-- An `llvm::Module`, as far as the pass touches it: its identity and
the number of `__assert` declarations that have been created in it. -/
structure LLVMModule where
  moduleId : Nat
  assertDeclCount : Nat

/-- The handle the pass keeps to a created `__assert` declaration; `parent` is
the module the declaration lives in (`Assert->getParent()`). -/
structure AssertFunctionRef where
  parent : Nat

/-- Model of `BoundsCheck::getAssertFunction` (lines 104–122): `Function::Create`
adds a fresh external declaration of the variadic, no-return, C-calling-
convention `__assert(char*, char*, int, ...)` to the module and returns
a handle to it.  (The signature and attributes are plumbing the claims
do not inspect; only the creation event and its parent module are
modelled.) -/
def getAssertFunction (Mod : LLVMModule) : LLVMModule × AssertFunctionRef :=
  ({ Mod with assertDeclCount := Mod.assertDeclCount + 1 },
   { parent := Mod.moduleId })

/-- The state of the `BoundsCheck` pass object: the cached `Assert`
member (null initially). -/
structure PassState where
  Assert : Option AssertFunctionRef

/-- What `runOnFunction` hands back when it returns normally. -/
structure RunResult where
  passState : PassState
  Mod : LLVMModule
  F : Function
  changed : Bool

/-- The condition of line 44:
`Assert == nullptr || Assert->getParent() != F.getParent()`. -/
def needAssertCreation (pass : PassState) (F : Function) : Bool :=
  match pass.Assert with
  | none => true
  | some a => a.parent != F.parent

/-- Lines 44–45: instantiate the `__assert` declaration once per module —
create it when `Assert` is null or belongs to another module, otherwise
keep the cached declaration and leave the module untouched. -/
def ensureAssert (pass : PassState) (Mod : LLVMModule) (F : Function) :
    PassState × LLVMModule :=
  if needAssertCreation pass F then
    ({ Assert := some (getAssertFunction Mod).2 }, (getAssertFunction Mod).1)
  else (pass, Mod)

/-- Model of `BoundsCheck::runOnFunction` (lines 33–97): create the `__assert`
declaration if `Assert` is null or belongs to another module (lines
44–45), collect the worklist (lines 50–56), analyze it (lines 59–94),
and return `changed` (always `false`, lines 59 and 96).  `F` is a
function of module `Mod` (`F.parent = Mod.moduleId` for well-formed
invocations). -/
def runOnFunction (pass : PassState) (Mod : LLVMModule) (F : Function) :
    Except RunError RunResult :=
  let created := ensureAssert pass Mod F
  match processWorkList (collectWorkList F) with
  | .error e => .error e
  | .ok () => .ok { passState := created.1, Mod := created.2, F := F, changed := false }

/-- The host pipeline invoking the pass once per function, in order,
threading the pass object and the module; a fatal error or fault stops
the whole compilation. -/
def runOnFunctions (pass : PassState) (Mod : LLVMModule) :
    List Function → Except RunError (PassState × LLVMModule)
  | [] => .ok (pass, Mod)
  | F :: rest =>
    match runOnFunction pass Mod F with
    | .error e => .error e
    | .ok r => runOnFunctions r.passState r.Mod rest

/-! ## Helper lemmas about the embedded definitions -/

/-- Values below `2 ^ 31` survive the narrowing conversion unchanged. -/
theorem toInt32_of_lt {n : Nat} (h : n < 2 ^ 31) : toInt32 n = n := by
  have h32 : n < 2 ^ 32 := lt_trans h (by norm_num)
  unfold toInt32
  rw [Nat.mod_eq_of_lt h32, if_pos h]

/-- A nonnegative recovered length can only come from a
pointer-to-fixed-size-array operand type. -/
theorem recoverArrayLength_nonneg {t : LLVMType} (h : 0 ≤ recoverArrayLength t) :
    ∃ n e, t = .pointer (.array n e) := by
  cases t with
  | pointer elementType =>
    cases elementType with
    | array n e => exact ⟨n, e, rfl⟩
    | integer w => simp [recoverArrayLength] at h
    | pointer p => simp [recoverArrayLength] at h
    | structType fs => simp [recoverArrayLength] at h
    | other tag => simp [recoverArrayLength] at h
  | integer w => simp [recoverArrayLength] at h
  | array n e => simp [recoverArrayLength] at h
  | structType fs => simp [recoverArrayLength] at h
  | other tag => simp [recoverArrayLength] at h

/-- Reading a cons list at the index equal to the length of the tail
yields the last element of the tail. -/
theorem getD_cons_length {α : Type} (a d : α) (l : List α) (h : l ≠ []) :
    some ((a :: l).getD l.length d) = l.getLast? := by
  induction l generalizing a with
  | nil => exact absurd rfl h
  | cons x xs ih =>
    cases xs with
    | nil => rfl
    | cons y ys =>
      have hne : (y :: ys : List α) ≠ [] := by simp
      have step : ((a :: x :: y :: ys).getD (x :: y :: ys).length d)
          = ((x :: y :: ys).getD (y :: ys).length d) := by
        simp [List.getD_cons_succ]
      rw [step, ih x hne]
      simp [List.getLast?]

/-- Reading `getOperand (getNumIndices)` is the last index operand (when there is
at least one index). -/
theorem getOperand_numIndices (g : GetElementPtrInst) (h : g.indices ≠ []) :
    some (g.getOperand g.getNumIndices) = g.indices.getLast? := by
  unfold GetElementPtrInst.getOperand GetElementPtrInst.operands
    GetElementPtrInst.getNumIndices
  exact getD_cons_length g.pointerOperand (.value 0) g.indices h

/-- Under the all-constant guard with at least one index, the last index
operand is a constant integer. -/
theorem exists_const_getLast {g : GetElementPtrInst} (hne : g.indices ≠ [])
    (hc : g.hasAllConstantIndices = true) :
    ∃ c : ConstantInt, g.indices.getLast? = some (.constInt c) := by
  have hmem := List.getLast_mem hne
  have hsome := List.all_eq_true.mp hc _ hmem
  cases hl : g.indices.getLast hne with
  | constInt c => exact ⟨c, by rw [List.getLast?_eq_getLast _ hne, hl]⟩
  | value t => rw [hl] at hsome; simp [dynCastConstantInt] at hsome

/-- Index recovery when the last index is the constant `c` and the guard
holds. -/
theorem recoverDesiredIndex_of_const {g : GetElementPtrInst} {c : ConstantInt}
    (hc : g.hasAllConstantIndices = true)
    (hlast : g.indices.getLast? = some (.constInt c)) :
    recoverDesiredIndex g = .ok (toInt32 c.getZExtValue) := by
  have hne : g.indices ≠ [] := by
    intro h0
    rw [h0] at hlast
    simp at hlast
  have hop : g.getOperand g.getNumIndices = .constInt c := by
    have h2 := (getOperand_numIndices g hne).trans hlast
    exact Option.some.inj h2
  unfold recoverDesiredIndex
  rw [if_pos hc, hop]
  rfl

/-- Index recovery when some index operand is not a constant integer:
`desiredIndex` stays at the sentinel. -/
theorem recoverDesiredIndex_of_nonconst {g : GetElementPtrInst}
    (hc : g.hasAllConstantIndices = false) :
    recoverDesiredIndex g = .ok (-1) := by
  unfold recoverDesiredIndex
  rw [hc]
  rfl

/-- Inversion of the decision policy: a diagnostic is produced only when
the guard and the numeric relation hold, and it is the formatted
message. -/
theorem decisionPolicy_some {aL dI : Int} {m : String}
    (h : (decisionPolicy aL dI).diagnostic = some m) :
    0 ≤ aL ∧ 0 ≤ dI ∧ aL ≤ dI ∧ m = stringFormat dI aL := by
  unfold decisionPolicy at h
  by_cases hg : aL ≥ 0 ∧ dI ≥ 0
  · rw [if_pos hg] at h
    by_cases hr : dI ≥ aL
    · rw [if_pos hr] at h
      simp at h
      exact ⟨hg.1, hg.2, hr, h.symm⟩
    · rw [if_neg hr] at h
      simp at h
  · rw [if_neg hg] at h
    simp at h

/-- Evaluation of the decision policy in the violation region. -/
theorem decisionPolicy_violation {aL dI : Int} (h1 : 0 ≤ aL) (h2 : 0 ≤ dI)
    (h3 : aL ≤ dI) :
    decisionPolicy aL dI =
      { diagnostic := some (stringFormat dI aL), relationEvaluated := true } := by
  unfold decisionPolicy
  rw [if_pos ⟨h1, h2⟩, if_pos h3]

/-- Evaluation of the decision policy in the in-bounds region. -/
theorem decisionPolicy_pass {aL dI : Int} (h1 : 0 ≤ aL) (h2 : 0 ≤ dI)
    (h3 : dI < aL) :
    decisionPolicy aL dI = { diagnostic := none, relationEvaluated := true } := by
  unfold decisionPolicy
  rw [if_pos ⟨h1, h2⟩, if_neg (not_le.mpr h3)]

/-- Evaluation of the decision policy when either quantity is negative
(in particular, at the unknown sentinel). -/
theorem decisionPolicy_unknown {aL dI : Int} (h : ¬(aL ≥ 0 ∧ dI ≥ 0)) :
    decisionPolicy aL dI = { diagnostic := none, relationEvaluated := false } := by
  unfold decisionPolicy
  rw [if_neg h]

/-- Silently passed instructions do not affect the processing of the rest
of the worklist. -/
theorem processWorkList_append_of_none {pre : List GetElementPtrInst}
    (h : ∀ x ∈ pre, analyzeGEP x = .ok none) (rest : List GetElementPtrInst) :
    processWorkList (pre ++ rest) = processWorkList rest := by
  induction pre with
  | nil => rfl
  | cons x xs ih =>
    have hx : analyzeGEP x = .ok none := h x (List.mem_cons_self x xs)
    have hxs : ∀ y ∈ xs, analyzeGEP y = .ok none :=
      fun y hy => h y (List.mem_cons_of_mem x hy)
    calc processWorkList ((x :: xs) ++ rest)
        = processWorkList (xs ++ rest) := by
          show processWorkList (x :: (xs ++ rest)) = _
          conv_lhs => rw [processWorkList]
          rw [hx]
      _ = processWorkList rest := ih hxs

/-- The inner Collector loop appends, in order, exactly the GEPs of the
block to the accumulated worklist. -/
theorem foldl_collect_block (insts : List Instruction)
    (acc : List GetElementPtrInst) :
    insts.foldl
      (fun workList BI =>
        match dynCastGEP BI with
        | some g => workList ++ [g]
        | none => workList) acc
    = acc ++ insts.filterMap dynCastGEP := by
  induction insts generalizing acc with
  | nil => simp
  | cons i is ih =>
    rw [List.foldl_cons]
    cases hi : dynCastGEP i with
    | some g => simp [hi, ih, List.filterMap_cons]
    | none => simp [hi, ih, List.filterMap_cons]

/-- The Collector returns exactly the GEP instructions of the function,
in block order then intra-block order. -/
theorem collectWorkList_eq (F : Function) :
    collectWorkList F
      = (F.blocks.flatMap fun b => b.instructions).filterMap dynCastGEP := by
  unfold collectWorkList
  suffices hgen : ∀ (bs : List BasicBlock) (acc : List GetElementPtrInst),
      bs.foldl
        (fun workList FI =>
          FI.instructions.foldl
            (fun workList BI =>
              match dynCastGEP BI with
              | some g => workList ++ [g]
              | none => workList) workList) acc
      = acc ++ (bs.flatMap fun b => b.instructions).filterMap dynCastGEP by
    simpa using hgen F.blocks []
  intro bs
  induction bs with
  | nil => simp
  | cons b bs ih =>
    intro acc
    rw [List.foldl_cons, foldl_collect_block, ih]
    simp [List.filterMap_append]

/-- The numeric relation of line 84 is evaluated exactly when the guard
of line 83 holds. -/
theorem decisionPolicy_relationEvaluated (aL dI : Int) :
    (decisionPolicy aL dI).relationEvaluated = true ↔ (aL ≥ 0 ∧ dI ≥ 0) := by
  unfold decisionPolicy
  by_cases hg : aL ≥ 0 ∧ dI ≥ 0
  · rw [if_pos hg]
    by_cases hr : dI ≥ aL
    · rw [if_pos hr]
      simpa using hg
    · rw [if_neg hr]
      simpa using hg
  · rw [if_neg hg]
    simpa using hg

/-- With a null `Assert` member, lines 44–45 create the declaration. -/
theorem ensureAssert_none (Mod : LLVMModule) (F : Function) :
    ensureAssert { Assert := none } Mod F
      = ({ Assert := some { parent := Mod.moduleId } },
         { Mod with assertDeclCount := Mod.assertDeclCount + 1 }) := by
  unfold ensureAssert needAssertCreation getAssertFunction
  simp

/-- With a cached declaration of the same module, lines 44–45 reuse it
and leave the module untouched. -/
theorem ensureAssert_reuse {a : AssertFunctionRef} {F : Function}
    (h : a.parent = F.parent) (Mod : LLVMModule) :
    ensureAssert { Assert := some a } Mod F = ({ Assert := some a }, Mod) := by
  unfold ensureAssert needAssertCreation
  simp [h]

/-- Inversion of a normally-returning `runOnFunction` invocation. -/
theorem runOnFunction_ok {pass : PassState} {Mod : LLVMModule} {F : Function}
    {r : RunResult} (h : runOnFunction pass Mod F = .ok r) :
    processWorkList (collectWorkList F) = .ok ()
    ∧ r = { passState := (ensureAssert pass Mod F).1
            Mod := (ensureAssert pass Mod F).2
            F := F
            changed := false } := by
  simp only [runOnFunction] at h
  split at h
  · exact absurd h (by simp)
  · next hw =>
      injection h with h2
      exact ⟨hw, h2.symm⟩

/-- A normally-returning `runOnFunction` with a cached same-module
declaration changes nothing. -/
theorem runOnFunction_reuse {a : AssertFunctionRef} {Mod : LLVMModule}
    {F : Function} {r : RunResult} (hpar : a.parent = F.parent)
    (h : runOnFunction { Assert := some a } Mod F = .ok r) :
    r = { passState := { Assert := some a }, Mod := Mod, F := F, changed := false } := by
  obtain ⟨hw, hr⟩ := runOnFunction_ok h
  rw [ensureAssert_reuse hpar Mod] at hr
  exact hr

/-- Over a list of functions of the module of the cached declaration,
the pass state and the module are invariant. -/
theorem runOnFunctions_reuse {a : AssertFunctionRef} {p2 : PassState}
    {M2 : LLVMModule} :
    ∀ {fs : List Function} {Mod : LLVMModule},
    (∀ F ∈ fs, F.parent = a.parent) →
    runOnFunctions { Assert := some a } Mod fs = .ok (p2, M2) →
    p2 = { Assert := some a } ∧ M2 = Mod := by
  intro fs
  induction fs with
  | nil =>
    intro Mod _ hrun
    simp [runOnFunctions] at hrun
    exact ⟨hrun.1.symm, hrun.2.symm⟩
  | cons F fs ih =>
    intro Mod hpar hrun
    have hF : F.parent = a.parent := hpar F (List.mem_cons_self F fs)
    conv at hrun => rw [runOnFunctions]
    cases hr : runOnFunction { Assert := some a } Mod F with
    | error e =>
      rw [hr] at hrun
      exact absurd hrun (by simp)
    | ok r =>
      rw [hr] at hrun
      have hreq := runOnFunction_reuse hF.symm hr
      rw [hreq] at hrun
      exact ih (fun G hG => hpar G (List.mem_cons_of_mem F hG)) hrun

/-! ## Claims -/

/-- C2: the decision policy tests the known/unknown state of
`arrayLength` and `desiredIndex` before any numeric comparison: the
relation `desiredIndex >= arrayLength` is evaluated only when both
recoveries succeeded (the base operand type is a pointer to a
fixed-size array and every index operand is constant), and whenever it
is evaluated neither side is the unknown sentinel `-1`; moreover a
diagnostic only ever arises from an evaluated relation. -/
theorem C2_policy_tests_state_first (g : GetElementPtrInst) (desiredIndex : Int)
    (hok : recoverDesiredIndex g = .ok desiredIndex) :
    ((decisionPolicy (recoverArrayLength g.pointerOperandType)
        desiredIndex).relationEvaluated = true →
      (∃ n e, g.pointerOperandType = .pointer (.array n e))
      ∧ g.hasAllConstantIndices = true
      ∧ recoverArrayLength g.pointerOperandType ≠ -1
      ∧ desiredIndex ≠ -1)
    ∧ ((decisionPolicy (recoverArrayLength g.pointerOperandType)
        desiredIndex).diagnostic.isSome = true →
      (decisionPolicy (recoverArrayLength g.pointerOperandType)
        desiredIndex).relationEvaluated = true) := by
  constructor
  · intro hrel
    obtain ⟨h1, h2⟩ := (decisionPolicy_relationEvaluated _ _).mp hrel
    have harr := recoverArrayLength_nonneg h1
    have hconst : g.hasAllConstantIndices = true := by
      by_contra hc
      have hfalse : g.hasAllConstantIndices = false := by
        cases hcc : g.hasAllConstantIndices
        · rfl
        · exact absurd hcc hc
      rw [recoverDesiredIndex_of_nonconst hfalse] at hok
      have hdm : (-1 : Int) = desiredIndex := by
        injection hok
      omega
    exact ⟨harr, hconst, by omega, by omega⟩
  · intro hdiag
    obtain ⟨m, hm⟩ := Option.isSome_iff_exists.mp hdiag
    obtain ⟨h1, h2, _, _⟩ := decisionPolicy_some hm
    exact (decisionPolicy_relationEvaluated _ _).mpr ⟨h1, h2⟩

/-- An in-bounds constant access against a known fixed-size array: base
`[5 x i32]*`, single constant index `3`. -/
def gepKnownInBounds : GetElementPtrInst :=
  { pointerOperand := .value 0
    pointerOperandType := .pointer (.array 5 (.integer 32))
    indices := [.constInt { bitWidth := 64, value := 3 }] }

/-- Witness for C2 at a concrete instruction with both sides known. -/
theorem C2_witness :
    (∃ n e, gepKnownInBounds.pointerOperandType = .pointer (.array n e))
    ∧ gepKnownInBounds.hasAllConstantIndices = true
    ∧ recoverArrayLength gepKnownInBounds.pointerOperandType ≠ -1
    ∧ (3 : Int) ≠ -1 :=
  (C2_policy_tests_state_first gepKnownInBounds 3 rfl).1 rfl

/-- C3: a pointer-indexing instruction (per the data model of the specification: one or more index operands) whose base does not point to a
fixed-size array, or that has a non-constant index operand, is passed
over silently — no diagnostic, no fault, and no effect on the analysis
of the rest of the worklist. -/
theorem C3_conservatism (g : GetElementPtrInst) (hne : g.indices ≠ [])
    (h : (∀ n e, g.pointerOperandType ≠ .pointer (.array n e))
      ∨ g.hasAllConstantIndices = false) :
    analyzeGEP g = .ok none
    ∧ ∀ rest, processWorkList (g :: rest) = processWorkList rest := by
  have hnone : analyzeGEP g = .ok none := by
    cases h with
    | inl hty =>
      have haL : ¬ (0 ≤ recoverArrayLength g.pointerOperandType) := by
        intro hge
        obtain ⟨n, e, hn⟩ := recoverArrayLength_nonneg hge
        exact hty n e hn
      by_cases hc : g.hasAllConstantIndices = true
      · obtain ⟨c, hlast⟩ := exists_const_getLast hne hc
        simp only [analyzeGEP]
        rw [recoverDesiredIndex_of_const hc hlast]
        dsimp only
        rw [decisionPolicy_unknown (fun hg => haL hg.1)]
      · have hf : g.hasAllConstantIndices = false := by
          cases hcc : g.hasAllConstantIndices
          · rfl
          · exact absurd hcc hc
        simp only [analyzeGEP]
        rw [recoverDesiredIndex_of_nonconst hf]
        dsimp only
        rw [decisionPolicy_unknown (fun hg => haL hg.1)]
    | inr hc =>
      simp only [analyzeGEP]
      rw [recoverDesiredIndex_of_nonconst hc]
      dsimp only
      rw [decisionPolicy_unknown (fun hg => absurd hg.2 (by norm_num))]
  refine ⟨hnone, fun rest => ?_⟩
  conv_lhs => rw [processWorkList]
  rw [hnone]

/-- A constant access through a base whose static type is a fixed-size
array, but with a non-constant (runtime) index operand. -/
def gepRuntimeIndex : GetElementPtrInst :=
  { pointerOperand := .value 1
    pointerOperandType := .pointer (.array 5 (.integer 32))
    indices := [.value 2] }

/-- Witness for C3 at a concrete non-constant-index instruction. -/
theorem C3_witness :
    analyzeGEP gepRuntimeIndex = .ok none
    ∧ ∀ rest, processWorkList (gepRuntimeIndex :: rest) = processWorkList rest :=
  C3_conservatism gepRuntimeIndex (List.cons_ne_nil _ _) (Or.inr rfl)

/-- C4 counterexample input: all indices constant, final constant value
`2 ^ 31` (representable in the IR, e.g. an `i64` index). -/
def gepHugeIndex : GetElementPtrInst :=
  { pointerOperand := .value 0
    pointerOperandType := .pointer (.integer 32)
    indices := [.constInt { bitWidth := 64, value := 2 ^ 31 }] }

/-- C4 counterexample: the claim says `desiredIndex` equals the final
constant integer value of the final index operand; at constant value `2 ^ 31` the
narrowing to the 32-bit `int` local produces `-2 ^ 31` instead. -/
theorem C4_counterexample :
    gepHugeIndex.hasAllConstantIndices = true
    ∧ gepHugeIndex.indices.getLast?
        = some (.constInt { bitWidth := 64, value := 2 ^ 31 })
    ∧ recoverDesiredIndex gepHugeIndex = .ok (-(2 ^ 31))
    ∧ (-(2 ^ 31) : Int) ≠ (((2 : Nat) ^ 31 : Nat) : Int) := by
  have h1 : recoverDesiredIndex gepHugeIndex
      = .ok (toInt32 (ConstantInt.getZExtValue { bitWidth := 64, value := 2 ^ 31 })) :=
    recoverDesiredIndex_of_const rfl rfl
  have h2 : toInt32 (ConstantInt.getZExtValue { bitWidth := 64, value := 2 ^ 31 })
      = -(2 ^ 31) := by decide
  refine ⟨rfl, rfl, ?_, by decide⟩
  rw [h1, h2]

/-- C4 as amended: with all index operands constant, `desiredIndex` is
the zero-extended value of the final operand reduced mod `2 ^ 64` and
narrowed to a signed 32-bit integer — equal to the value of the constant
exactly when that value is below `2 ^ 31`; with any non-constant index
operand, `desiredIndex` is the unknown sentinel `-1`. -/
theorem C4_index_recovery (g : GetElementPtrInst) :
    (∀ c : ConstantInt, g.hasAllConstantIndices = true →
        g.indices.getLast? = some (.constInt c) →
        recoverDesiredIndex g = .ok (toInt32 (c.value % 2 ^ 64))
        ∧ (c.value < 2 ^ 31 → recoverDesiredIndex g = .ok (c.value : Int)))
    ∧ (g.hasAllConstantIndices = false → recoverDesiredIndex g = .ok (-1)) := by
  constructor
  · intro c hc hlast
    have h := recoverDesiredIndex_of_const hc hlast
    have hz : c.getZExtValue = c.value % 2 ^ 64 := rfl
    refine ⟨by rw [h, hz], fun hlt => ?_⟩
    have hsmall : c.value % 2 ^ 64 = c.value :=
      Nat.mod_eq_of_lt (lt_trans hlt (by norm_num))
    rw [h, hz, hsmall, toInt32_of_lt hlt]
  · exact recoverDesiredIndex_of_nonconst

/-- Witness for both branches of C4: a constant index `3` recovers as
`3`; a non-constant index leaves the sentinel. -/
theorem C4_witness :
    recoverDesiredIndex gepKnownInBounds = .ok ((3 : Nat) : Int)
    ∧ recoverDesiredIndex gepRuntimeIndex = .ok (-1) :=
  ⟨((C4_index_recovery gepKnownInBounds).1 { bitWidth := 64, value := 3 }
      rfl rfl).2 (by norm_num),
   (C4_index_recovery gepRuntimeIndex).2 rfl⟩

/-- C5 counterexample: the claim says `arrayLength` equals the declared
element count of the array type; at declared count `2 ^ 31` the narrowing
to the 32-bit `int` local produces `-2 ^ 31` instead. -/
theorem C5_counterexample :
    recoverArrayLength (.pointer (.array (2 ^ 31) (.integer 8))) = -(2 ^ 31)
    ∧ (-(2 ^ 31) : Int) ≠ (((2 : Nat) ^ 31 : Nat) : Int) := by
  constructor
  · show toInt32 (2 ^ 31) = -(2 ^ 31)
    decide
  · decide

/-- C5 as amended: a base pointing to a fixed-size array yields the
declared element count narrowed to a signed 32-bit integer (equal to
the count exactly when the count is below `2 ^ 31`); every other
pointed-to type (scalar, struct, pointer, unresolvable — and a
non-pointer base type) yields the unknown sentinel `-1`, with no
further heuristics. -/
theorem C5_length_recovery :
    (∀ (n : Nat) (e : LLVMType),
        recoverArrayLength (.pointer (.array n e)) = toInt32 n
        ∧ (n < 2 ^ 31 → recoverArrayLength (.pointer (.array n e)) = (n : Int)))
    ∧ (∀ t : LLVMType, (∀ n e, t ≠ .pointer (.array n e)) →
        recoverArrayLength t = -1) := by
  constructor
  · intro n e
    exact ⟨rfl, fun h => toInt32_of_lt h⟩
  · intro t ht
    cases t with
    | pointer p =>
      cases p with
      | array n e => exact absurd rfl (ht n e)
      | integer w => rfl
      | pointer q => rfl
      | structType fs => rfl
      | other tag => rfl
    | integer w => rfl
    | array n e => rfl
    | structType fs => rfl
    | other tag => rfl

/-- Witness for both branches of C5: a declared count `5` recovers as
`5`; a pointer-to-scalar base yields the sentinel. -/
theorem C5_witness :
    recoverArrayLength (.pointer (.array 5 (.integer 32))) = ((5 : Nat) : Int)
    ∧ recoverArrayLength (.pointer (.integer 32)) = -1 :=
  ⟨(C5_length_recovery.1 5 (.integer 32)).2 (by norm_num),
   C5_length_recovery.2 (.pointer (.integer 32))
     (fun n e h => by simp at h)⟩

/-- C10 counterexample input: a GEP with zero index operands (valid LLVM
IR — `getelementptr` with no indices). -/
def gepNoIndices : GetElementPtrInst :=
  { pointerOperand := .value 7
    pointerOperandType := .pointer (.integer 32)
    indices := [] }

/-- C10 counterexample: with zero index operands the all-constant guard
holds vacuously, `getOperand(getNumIndices())` is the base pointer
operand, the `ConstantInt` downcast fails, and the unchecked dereference
of its null result faults. -/
theorem C10_counterexample :
    gepNoIndices.hasAllConstantIndices = true
    ∧ dynCastConstantInt (gepNoIndices.getOperand gepNoIndices.getNumIndices) = none
    ∧ recoverDesiredIndex gepNoIndices = .error .nullDereference :=
  ⟨rfl, rfl, rfl⟩

/-- C10 as amended: whenever the all-constant-indices guard holds and
the instruction has at least one index operand, the downcast of the
final index operand succeeds and index recovery cannot fault. -/
theorem C10_downcast_total (g : GetElementPtrInst) (hne : g.indices ≠ [])
    (hc : g.hasAllConstantIndices = true) :
    (dynCastConstantInt (g.getOperand g.getNumIndices)).isSome = true
    ∧ ∃ desiredIndex, recoverDesiredIndex g = .ok desiredIndex := by
  obtain ⟨c, hlast⟩ := exists_const_getLast hne hc
  have hop : g.getOperand g.getNumIndices = .constInt c :=
    Option.some.inj ((getOperand_numIndices g hne).trans hlast)
  constructor
  · rw [hop]
    rfl
  · exact ⟨_, recoverDesiredIndex_of_const hc hlast⟩

/-- Witness for C10 at a concrete one-index constant GEP. -/
theorem C10_witness :
    (dynCastConstantInt
      (gepKnownInBounds.getOperand gepKnownInBounds.getNumIndices)).isSome = true
    ∧ ∃ desiredIndex, recoverDesiredIndex gepKnownInBounds = .ok desiredIndex :=
  C10_downcast_total gepKnownInBounds (List.cons_ne_nil _ _) rfl

/-- C1 counterexample input: base `[5 x i32]*`, single constant index of
value `2 ^ 31`. -/
def gepHugeIndexIntoArray : GetElementPtrInst :=
  { pointerOperand := .value 0
    pointerOperandType := .pointer (.array 5 (.integer 32))
    indices := [.constInt { bitWidth := 64, value := 2 ^ 31 }] }

/-- C1 counterexample: the claim demands a fatal diagnostic iff
`i ≥ L`; here `i = 2 ^ 31 ≥ 5 = L`, yet the narrowing of the index to
the 32-bit `int` local makes it negative, the instruction is treated as
not analyzable, and no diagnostic is raised. -/
theorem C1_counterexample :
    gepHugeIndexIntoArray.pointerOperandType = .pointer (.array 5 (.integer 32))
    ∧ gepHugeIndexIntoArray.hasAllConstantIndices = true
    ∧ gepHugeIndexIntoArray.indices.getLast?
        = some (.constInt { bitWidth := 64, value := 2 ^ 31 })
    ∧ 5 ≤ (2 : Nat) ^ 31
    ∧ analyzeGEP gepHugeIndexIntoArray = .ok none
    ∧ processWorkList [gepHugeIndexIntoArray] = .ok () := by
  have hdi : recoverDesiredIndex gepHugeIndexIntoArray
      = .ok (toInt32 (ConstantInt.getZExtValue { bitWidth := 64, value := 2 ^ 31 })) :=
    recoverDesiredIndex_of_const rfl rfl
  have hnone : analyzeGEP gepHugeIndexIntoArray = .ok none := by
    simp only [analyzeGEP]
    rw [hdi]
    dsimp only
    rw [decisionPolicy_unknown ?neg]
    case neg =>
      intro hg
      exact absurd hg.2 (by decide)
  refine ⟨rfl, rfl, rfl, by norm_num, hnone, ?_⟩
  conv_lhs => rw [processWorkList]
  rw [hnone]
  rfl

/-- C1 as amended: for a base pointing to a fixed-size array of declared
length `L` with all index operands constant and final constant value
`i`, provided both `i` and `L` are below `2 ^ 31` (so that the 32-bit
`int` locals represent them faithfully), the analysis raises a fatal
diagnostic iff `i ≥ L`. -/
theorem C1_constant_bounds (g : GetElementPtrInst) (L : Nat) (e : LLVMType)
    (c : ConstantInt)
    (hty : g.pointerOperandType = .pointer (.array L e))
    (hc : g.hasAllConstantIndices = true)
    (hlast : g.indices.getLast? = some (.constInt c))
    (hi : c.value < 2 ^ 31) (hL : L < 2 ^ 31) :
    (∃ m, analyzeGEP g = .ok (some m)) ↔ L ≤ c.value := by
  have hz : c.getZExtValue = c.value :=
    Nat.mod_eq_of_lt (lt_trans hi (by norm_num))
  have hdi : recoverDesiredIndex g = .ok ((c.value : Nat) : Int) := by
    rw [recoverDesiredIndex_of_const hc hlast, hz, toInt32_of_lt hi]
  have haL : recoverArrayLength g.pointerOperandType = ((L : Nat) : Int) := by
    rw [hty]
    exact toInt32_of_lt hL
  constructor
  · rintro ⟨m, hm⟩
    simp only [analyzeGEP] at hm
    rw [hdi] at hm
    dsimp only at hm
    have hsome : (decisionPolicy (recoverArrayLength g.pointerOperandType)
        ((c.value : Nat) : Int)).diagnostic = some m := by
      injection hm
    obtain ⟨_, _, h3, _⟩ := decisionPolicy_some hsome
    rw [haL] at h3
    exact_mod_cast h3
  · intro hLe
    refine ⟨stringFormat ((c.value : Nat) : Int) ((L : Nat) : Int), ?_⟩
    simp only [analyzeGEP]
    rw [hdi]
    dsimp only
    rw [haL, decisionPolicy_violation (by positivity) (by positivity)
      (by exact_mod_cast hLe)]

/-- Scenario 5 of the specification: a zero-length array accessed at
constant index `0`. -/
def gepZeroLenZeroIdx : GetElementPtrInst :=
  { pointerOperand := .value 0
    pointerOperandType := .pointer (.array 0 (.integer 32))
    indices := [.constInt { bitWidth := 64, value := 0 }] }

/-- Witness for C1: `a[0]` against a zero-length array is flagged
(`0 ≥ 0`). -/
theorem C1_witness :
    (∃ m, analyzeGEP gepZeroLenZeroIdx = .ok (some m)) ↔ (0 : Nat) ≤ 0 :=
  C1_constant_bounds gepZeroLenZeroIdx 0 (.integer 32)
    { bitWidth := 64, value := 0 } rfl rfl rfl (by norm_num) (by norm_num)

/-- C6: the first proven violation in worklist order raises the fatal
diagnostic built from the recovered index and length; the result does
not depend on the rest of the worklist (nothing after the violation is
analyzed), and the message contains the decimal renderings of both the
offending index and the array length. -/
theorem C6_first_violation (pre : List GetElementPtrInst)
    (g : GetElementPtrInst) (post : List GetElementPtrInst) (m : String)
    (hpre : ∀ x ∈ pre, analyzeGEP x = .ok none)
    (hg : analyzeGEP g = .ok (some m)) :
    processWorkList (pre ++ g :: post) = .error (.fatal m)
    ∧ (∀ post2, processWorkList (pre ++ g :: post2) = .error (.fatal m))
    ∧ ∃ desiredIndex arrayLength : Int,
        recoverDesiredIndex g = .ok desiredIndex
        ∧ recoverArrayLength g.pointerOperandType = arrayLength
        ∧ m = stringFormat desiredIndex arrayLength
        ∧ (∃ p s, m.data = p ++ (toString desiredIndex).data ++ s)
        ∧ (∃ p s, m.data = p ++ (toString arrayLength).data ++ s) := by
  have hstep : ∀ post2 : List GetElementPtrInst,
      processWorkList (pre ++ g :: post2) = .error (.fatal m) := by
    intro post2
    rw [processWorkList_append_of_none hpre]
    conv_lhs => rw [processWorkList]
    rw [hg]
  refine ⟨hstep post, hstep, ?_⟩
  cases hdi : recoverDesiredIndex g with
  | error f =>
    simp only [analyzeGEP] at hg
    rw [hdi] at hg
    exact absurd hg (by simp)
  | ok dI =>
    have hsome : (decisionPolicy (recoverArrayLength g.pointerOperandType)
        dI).diagnostic = some m := by
      simp only [analyzeGEP] at hg
      rw [hdi] at hg
      dsimp only at hg
      injection hg
    obtain ⟨_, _, _, hm⟩ := decisionPolicy_some hsome
    refine ⟨dI, recoverArrayLength g.pointerOperandType, rfl, rfl, hm, ?_, ?_⟩
    · refine ⟨("Wrong assignment to index ").data,
        (" (zero-based) while array has length "
          ++ toString (recoverArrayLength g.pointerOperandType)
          ++ "! Aborting...").data, ?_⟩
      rw [hm]
      unfold stringFormat
      simp [String.data_append, List.append_assoc]
    · refine ⟨("Wrong assignment to index " ++ toString dI
          ++ " (zero-based) while array has length ").data,
        ("! Aborting...").data, ?_⟩
      rw [hm]
      unfold stringFormat
      simp [String.data_append, List.append_assoc]

/-- Scenario 2 of the specification: a 5-element array accessed at
constant index `5`. -/
def gepOffByOne : GetElementPtrInst :=
  { pointerOperand := .value 0
    pointerOperandType := .pointer (.array 5 (.integer 32))
    indices := [.constInt { bitWidth := 64, value := 5 }] }

/-- Witness for C6 at a concrete violating worklist. -/
theorem C6_witness :
    processWorkList [gepOffByOne] = .error (.fatal (stringFormat 5 5)) :=
  (C6_first_violation [] gepOffByOne [] (stringFormat 5 5)
    (fun x hx => absurd hx (List.not_mem_nil x)) rfl).1

/-- C7: whenever the pass returns to the host pipeline, the analyzed
instruction sequence of the function is unchanged and the "modified" result
is `false`. -/
theorem C7_no_mutation (pass : PassState) (Mod : LLVMModule) (F : Function)
    (r : RunResult) (h : runOnFunction pass Mod F = .ok r) :
    r.F = F ∧ r.changed = false := by
  obtain ⟨-, hr⟩ := runOnFunction_ok h
  rw [hr]
  exact ⟨rfl, rfl⟩

/-- A function with one in-bounds access and one non-GEP instruction. -/
def funInBounds : Function :=
  { parent := 0
    blocks := [{ instructions := [.other 3, .gep gepKnownInBounds] }] }

/-- The result of running the pass from the initial state on
`funInBounds` inside an empty module `0`. -/
def runResultInBounds : RunResult :=
  { passState := { Assert := some { parent := 0 } }
    Mod := { moduleId := 0, assertDeclCount := 1 }
    F := funInBounds
    changed := false }

/-- Witness for C7 at a concrete invocation. -/
theorem C7_witness :
    runResultInBounds.F = funInBounds ∧ runResultInBounds.changed = false :=
  C7_no_mutation { Assert := none } { moduleId := 0, assertDeclCount := 0 }
    funInBounds runResultInBounds rfl

/-- C8: over any run of the pass on functions of a single module,
starting from the initial (null) pass state, the `__assert` declaration
is created exactly once — on the first invocation — and every later
invocation reuses the cached declaration, leaving the declarations of the module
untouched. -/
theorem C8_assert_created_once (Mod : LLVMModule) (F0 : Function)
    (fs : List Function) (p2 : PassState) (M2 : LLVMModule)
    (hp0 : F0.parent = Mod.moduleId)
    (hparent : ∀ F ∈ fs, F.parent = Mod.moduleId)
    (hrun : runOnFunctions { Assert := none } Mod (F0 :: fs) = .ok (p2, M2)) :
    M2 = { Mod with assertDeclCount := Mod.assertDeclCount + 1 }
    ∧ p2 = { Assert := some { parent := Mod.moduleId } } := by
  conv at hrun => rw [runOnFunctions]
  cases hr0 : runOnFunction { Assert := none } Mod F0 with
  | error e =>
    rw [hr0] at hrun
    exact absurd hrun (by simp)
  | ok r =>
    rw [hr0] at hrun
    obtain ⟨-, hreq⟩ := runOnFunction_ok hr0
    rw [ensureAssert_none Mod F0] at hreq
    rw [hreq] at hrun
    have hpar2 : ∀ F ∈ fs,
        F.parent = ({ parent := Mod.moduleId } : AssertFunctionRef).parent :=
      hparent
    obtain ⟨hp, hM⟩ := runOnFunctions_reuse hpar2 hrun
    exact ⟨hM, hp⟩

/-- A second function of the same module. -/
def funEmpty : Function :=
  { parent := 0, blocks := [] }

/-- Witness for C8: two functions of module `0`, one declaration. -/
theorem C8_witness :
    ({ moduleId := 0, assertDeclCount := 1 } : LLVMModule)
        = { ({ moduleId := 0, assertDeclCount := 0 } : LLVMModule) with
            assertDeclCount :=
              ({ moduleId := 0, assertDeclCount := 0 } : LLVMModule).assertDeclCount + 1 }
    ∧ ({ Assert := some { parent := 0 } } : PassState)
        = { Assert := some { parent := 0 } } :=
  C8_assert_created_once { moduleId := 0, assertDeclCount := 0 } funInBounds
    [funEmpty] _ _ rfl (fun F hF => by
      cases hF with
      | head => rfl
      | tail _ h => exact absurd h (List.not_mem_nil F)) rfl

/-- C9: the worklist of the Collector is exactly the GEP instructions of the
function, in basic-block order then intra-block order, and the Analyzer
consumes precisely that fixed list: the failure behaviour of the pass is
determined by `processWorkList` of the built worklist. -/
theorem C9_collector_exact (F : Function) :
    collectWorkList F
      = (F.blocks.flatMap fun b => b.instructions).filterMap dynCastGEP
    ∧ ∀ pass Mod e, runOnFunction pass Mod F = .error e
        ↔ processWorkList (collectWorkList F) = .error e := by
  refine ⟨collectWorkList_eq F, fun pass Mod e => ?_⟩
  constructor
  · intro h
    simp only [runOnFunction] at h
    cases hw : processWorkList (collectWorkList F) with
    | error e2 =>
      rw [hw] at h
      dsimp only at h
      injection h with h2
      rw [h2]
    | ok u =>
      cases u
      rw [hw] at h
      exact absurd h (by simp)
  · intro h
    simp only [runOnFunction]
    rw [h]

/-- Witness for C9 at a concrete two-block function. -/
def funTwoBlocks : Function :=
  { parent := 0
    blocks := [{ instructions := [.other 1, .gep gepKnownInBounds] },
               { instructions := [.gep gepRuntimeIndex, .other 2] }] }

/-- C9 instantiated at `funTwoBlocks`. -/
theorem C9_witness :
    collectWorkList funTwoBlocks
      = (funTwoBlocks.blocks.flatMap fun b => b.instructions).filterMap dynCastGEP
    ∧ ∀ pass Mod e, runOnFunction pass Mod funTwoBlocks = .error e
        ↔ processWorkList (collectWorkList funTwoBlocks) = .error e :=
  C9_collector_exact funTwoBlocks

end BoundsCheck
